import Mathlib

/-!
Verification development for the oidbs MQTT import core.

The byte-level transport (`Network` in src/mqtt_client/client.rs) is
embedded shallowly: the peer's stream is a list of chunks, one chunk per
successful `socket.read` call (truncated to the size of the scratch
buffer passed to the call, leftover bytes staying at the front of the
stream); an exhausted stream models a read returning zero bytes.
-/

namespace Oidbs

/-- Error kinds produced by the transport, named after the
`io::ErrorKind` values used in the source. -/
inductive NetError
  | connectionAborted
  | connectionReset
  | malformedFrame
  deriving DecidableEq, Repr

/-- Total number of bytes remaining in the stream. -/
def sumLen (st : List (List Nat)) : Nat := (st.map List.length).sum

/-- `Network::read_bytes` (client.rs lines 32-57).  The loop state
(`total_read`, plus a count `reads` of socket reads performed, kept as
instrumentation that does not influence control flow) is threaded as
parameters; the entry point `read_bytes` passes 0, 0.  Each iteration
allocates a scratch buffer of size `required`, so each socket read
returns at most `required` bytes.  On a zero-byte read the error kind
depends on whether the accumulated read buffer `buf` is empty, exactly
as in the source. -/
def read_bytes_loop (required : Nat) (st : List (List Nat)) (buf : List Nat)
    (total_read reads : Nat) : Except NetError (Nat × Nat × List Nat × List (List Nat)) :=
  match st with
  | [] =>
      if buf.isEmpty then .error .connectionAborted else .error .connectionReset
  | c :: rest =>
      if hg : (c.take required).length = 0 then
        if buf.isEmpty then .error .connectionAborted else .error .connectionReset
      else if required ≤ total_read + (c.take required).length then
        .ok (total_read + (c.take required).length, reads + 1, buf ++ c.take required,
          if required < c.length then c.drop required :: rest else rest)
      else
        read_bytes_loop required
          (if required < c.length then c.drop required :: rest else rest)
          (buf ++ c.take required) (total_read + (c.take required).length) (reads + 1)
termination_by sumLen st
decreasing_by
  simp only [List.length_take] at hg
  split
  · simp only [sumLen, List.map_cons, List.sum_cons, List.length_drop]
    omega
  · simp only [sumLen, List.map_cons, List.sum_cons]
    omega

/-- Entry point of `Network::read_bytes`: `total_read` starts at zero. -/
def read_bytes (required : Nat) (st : List (List Nat)) (buf : List Nat) :
    Except NetError (Nat × Nat × List Nat × List (List Nat)) :=
  read_bytes_loop required st buf 0 0

/-- Result of one decode attempt by the external frame codec
(`mqttbytes::v4::read`): a decoded frame together with the number of
consumed bytes, a request for `n` further bytes
(`Error::InsufficientBytes`), or malformed input. -/
inductive DecodeResult (F : Type)
  | ok (frame : F) (consumed : Nat)
  | needMore (n : Nat)
  | malformed
  deriving DecidableEq, Repr

/-- Modelled from the spec: the external frame codec, absent from src/,
is "given a byte buffer, either decodes one complete frame or reports
how many additional bytes are required, or reports malformed input". -/
structure Codec (F : Type) where
  decode : List Nat → DecodeResult F

/-- `Network::read` (client.rs lines 59-71): repeatedly attempt a
decode; when the codec requests `n` more bytes, call `read_bytes n` and
retry; on a decode success return the frame (the consumed prefix leaves
the buffer); on malformed input fail immediately. -/
def Network.read {F : Type} (C : Codec F) (st : List (List Nat)) (buf : List Nat) :
    Except NetError (F × List Nat × List (List Nat)) :=
  match C.decode buf with
  | .ok f consumed => .ok (f, buf.drop consumed, st)
  | .malformed => .error .malformedFrame
  | .needMore n =>
    match h : read_bytes n st buf with
    | .error e => .error e
    | .ok (_, _, buf', st') => Network.read C st' buf'
termination_by sumLen st
decreasing_by
  have key : ∀ (st₀ : List (List Nat)) (buf₀ : List Nat) (t₀ r₀ : Nat)
      (t r : Nat) (b : List Nat) (s : List (List Nat)),
      read_bytes_loop n st₀ buf₀ t₀ r₀ = .ok (t, r, b, s) → sumLen s < sumLen st₀ := by
    intro st₀ buf₀ t₀ r₀
    induction st₀, buf₀, t₀, r₀ using read_bytes_loop.induct n with
    | case1 buf₀ t₀ r₀ hb =>
        intro t r b s hh
        simp [read_bytes_loop, hb] at hh
    | case2 buf₀ t₀ r₀ hb =>
        intro t r b s hh
        simp [read_bytes_loop, hb] at hh
    | case3 buf₀ t₀ r₀ c rest hg hb =>
        intro t r b s hh
        simp [read_bytes_loop, hg, hb] at hh
    | case4 buf₀ t₀ r₀ c rest hg hb =>
        intro t r b s hh
        simp [read_bytes_loop, hg, hb] at hh
    | case5 buf₀ t₀ r₀ c rest hg hle =>
        intro t r b s hh
        rw [read_bytes_loop] at hh
        rw [dif_neg hg, if_pos hle] at hh
        simp only [Except.ok.injEq, Prod.mk.injEq] at hh
        obtain ⟨-, -, -, hs⟩ := hh
        subst hs
        simp only [List.length_take] at hg
        split
        · simp only [sumLen, List.map_cons, List.sum_cons, List.length_drop]
          omega
        · simp only [sumLen, List.map_cons, List.sum_cons]
          omega
    | case6 buf₀ t₀ r₀ c rest hg hle ih =>
        intro t r b s hh
        rw [read_bytes_loop] at hh
        rw [dif_neg hg, if_neg hle] at hh
        simp only [dite_eq_ite] at ih
        have hlt := ih t r b s hh
        have hmono : sumLen (if n < c.length then c.drop n :: rest else rest) <
            sumLen (c :: rest) := by
          simp only [List.length_take] at hg
          split
          · simp only [sumLen, List.map_cons, List.sum_cons, List.length_drop]
            omega
          · simp only [sumLen, List.map_cons, List.sum_cons]
            omega
        exact lt_trans hlt hmono
  exact key st buf 0 0 _ _ _ _ h

/-- `Network::write` (client.rs lines 85-93): an empty scratch buffer is
a no-op; otherwise one `socket.write` call is issued with the whole
buffer, its returned count (`cap`, how many bytes the stream accepted on
that call) is ignored, and the buffer is cleared.  Returns the scratch
buffer and the wire contents after the call; the source returns `Ok(())`
on both paths. -/
def Network.write (cap : Nat) (buf : List Nat) (wire : List Nat) : List Nat × List Nat :=
  if buf.isEmpty then (buf, wire) else ([], wire ++ buf.take cap)

/-- Quality levels (`mqttbytes::QoS`); only `atMostOnce`
(fire-and-forget) is exercised by the importer. -/
inductive QoS
  | atMostOnce
  | atLeastOnce
  | exactlyOnce
  deriving DecidableEq, Repr

/-- `mqttbytes::v4::ConnectReturnCode` as matched by the handshake. -/
inductive ConnectReturnCode
  | success
  | refusedProtocolVersion
  | badClientId
  | serviceUnavailable
  | badUserNamePassword
  | notAuthorized
  deriving DecidableEq, Repr

/-- `mqttbytes::v4::LastWill`. -/
structure LastWill where
  topic : String
  message : List Nat
  qos : QoS
  retain : Bool
  deriving DecidableEq, Repr

/-- `mqttbytes::v4::Connect` as assembled by `Client::handshake`. -/
structure ConnectFrame where
  keep_alive : Nat
  client_id : String
  clean_session : Bool
  last_will : Option LastWill
  login : Option (String × String)
  deriving DecidableEq, Repr

/-- `mqttbytes::v4::Publish` at the granularity the session client
handles it (no packet identifier is used at QoS 0). -/
structure PublishFrame where
  topic : String
  qos : QoS
  payload : List Nat
  deriving DecidableEq, Repr

/-- The packets (`mqttbytes::v4::Packet`) this client sends or receives,
plus representatives of the other frame types an ill-behaved broker
could send instead of a ConnAck. -/
inductive Packet
  | connect (c : ConnectFrame)
  | connAck (session_present : Bool) (code : ConnectReturnCode)
  | publish (p : PublishFrame)
  | pingReq
  | pingResp
  | disconnect
  deriving DecidableEq, Repr

/-- `Transport` (mod.rs lines 50-53). -/
inductive Transport
  | tcp
  | unix
  deriving DecidableEq, Repr

/-- `MqttOptions` (mod.rs lines 76-111); `Duration` fields are held in
their source units (seconds for `keep_alive`, microseconds for
`pending_throttle`). -/
structure MqttOptions where
  broker_addr : String
  port : Nat
  transport : Transport
  keep_alive : Nat
  clean_session : Bool
  client_id : String
  credentials : Option (String × String)
  max_incoming_packet_size : Nat
  max_outgoing_packet_size : Nat
  request_channel_capacity : Nat
  max_request_batch : Nat
  pending_throttle : Nat
  inflight : Nat
  last_will : Option LastWill
  conn_timeout : Nat
  deriving DecidableEq, Repr

/-- `str::starts_with(' ')`: whether the first character is a space. -/
def starts_with_space (id : String) : Bool :=
  match id.data with
  | [] => false
  | c :: _ => c == ' '

/-- `MqttOptions::new` (mod.rs lines 116-139).  The source panics on an
empty or leading-space identifier; the panic is modelled as the error
branch of an `Except`, carrying the panic message. -/
def MqttOptions.new (id host : String) (port : Nat) : Except String MqttOptions :=
  if starts_with_space id = true ∨ id = "" then .error "Invalid client id"
  else .ok {
    broker_addr := host
    port := port
    transport := Transport.tcp
    keep_alive := 60
    clean_session := true
    client_id := id
    credentials := none
    max_incoming_packet_size := 10 * 1024
    max_outgoing_packet_size := 10 * 1024
    request_channel_capacity := 10
    max_request_batch := 0
    pending_throttle := 0
    inflight := 100
    last_will := none
    conn_timeout := 5 }

/-- `MqttOptions::set_max_packet_size` (mod.rs lines 192-196). -/
def MqttOptions.set_max_packet_size (o : MqttOptions) (incoming outgoing : Nat) : MqttOptions :=
  { o with max_incoming_packet_size := incoming, max_outgoing_packet_size := outgoing }

/-- `MqttOptions::set_credentials` (mod.rs lines 220-223). -/
def MqttOptions.set_credentials (o : MqttOptions) (username password : String) : MqttOptions :=
  { o with credentials := some (username, password) }

/-- `MAX_PACKET_SIZE` (client.rs line 105). -/
def MAX_PACKET_SIZE : Nat := 1024 * 1024

/-- The configuration `Client::new` (client.rs lines 109-117) hands to
`Network::new` after the TCP connect: the decode limit passed to the
transport is the hard-coded `MAX_PACKET_SIZE`, not the options field. -/
structure ClientConfig where
  max_incoming_size : Nat
  options : MqttOptions
  deriving DecidableEq, Repr

/-- `Client::new` (client.rs lines 109-117), restricted to the
configuration it assembles (the TCP connect itself is environment). -/
def Client.new (options : MqttOptions) : ClientConfig :=
  { max_incoming_size := MAX_PACKET_SIZE, options := options }

/-- Errors of `Client::handshake`, named after the spec taxonomy; in the
source both are `io::Error::new(InvalidData, msg)` with distinct
messages ("Broker rejected. Reason = {code}" versus "Expecting connack.
Received = {packet}"). -/
inductive HandshakeError
  | handshakeRejected (code : ConnectReturnCode)
  | unexpectedFrame (p : Packet)
  deriving DecidableEq, Repr

/-- The Connect frame `Client::handshake` builds from the stored options
(client.rs lines 120-132); `keep_alive().as_secs() as u16` truncates
modulo 2^16. -/
def build_connect (o : MqttOptions) : ConnectFrame :=
  { keep_alive := o.keep_alive % 65536
    client_id := o.client_id
    clean_session := o.clean_session
    last_will := o.last_will
    login := o.credentials }

/-- `Client::handshake` (client.rs lines 119-152): writes the Connect
frame built from the options, then reads one frame (`incoming` is the
decoded result of that read) and matches it: an accepted ConnAck is
returned as is; a ConnAck with any other return code is the rejection
error; any other frame is the unexpected-frame error.  The first
component is the frame written to the stream. -/
def handshake (o : MqttOptions) (incoming : Packet) :
    Packet × Except HandshakeError Packet :=
  (Packet.connect (build_connect o),
    match incoming with
    | .connAck sp code =>
        if code = .success then .ok (.connAck sp code)
        else .error (.handshakeRejected code)
    | p => .error (.unexpectedFrame p))

/-- Modelled from the spec: the session-state machine of spec section 3
("Disconnected -> Connecting -> Handshaking -> Connected ->
Closed/Errored"); the source keeps no state field, so the state is
defined by the handshake outcome. -/
inductive SessionState
  | disconnected
  | connecting
  | handshaking
  | connected
  | closed
  | errored
  deriving DecidableEq, Repr

/-- Modelled from the spec: the state the Session Client reaches after
its single handshake, per spec section 4.2. -/
def session_after_handshake (o : MqttOptions) (incoming : Packet) : SessionState :=
  match (handshake o incoming).2 with
  | .ok _ => .connected
  | .error _ => .errored

/-- Errors the spec taxonomy assigns to `publish`; the source's
`Client::publish_bytes` returns `Result<(), mqttbytes::Error>` and has
no `NotConnected` value at all. -/
inductive PublishError
  | notConnected
  | publishIOError
  deriving DecidableEq, Repr

/-- Observable state of a running session client: the frames written to
its stream, the unread inbound frames, and the spec-modelled flag for
whether the handshake has been accepted (the source `Client` struct
stores no such state, only `network` and `options`). -/
structure ClientState where
  sent : List Packet
  inbound : List Packet
  handshaken : Bool
  deriving DecidableEq, Repr

/-- `Client::publish_bytes` (client.rs lines 154-173): encodes one
Publish frame and writes it via `Network::write`, returning `Ok(())`
once the write completes.  It consults no session state, performs no
read, and waits for no acknowledgment. -/
def publish_bytes (c : ClientState) (topic : String) (qos : QoS) (payload : List Nat) :
    Except PublishError Unit × ClientState :=
  (.ok (), { c with sent := c.sent ++ [Packet.publish ⟨topic, qos, payload⟩] })

/-- A freshly constructed client on which `handshake` has not run: not
in the Connected state. -/
def fresh_client : ClientState :=
  { sent := [], inbound := [], handshaken := false }

/-- `itertools::chunks` as used by the importer: consecutive groups of
`n` records, the last group possibly shorter.  `chunks(0)` panics in
itertools and is modelled by the empty result; all callers require
`0 < n`. -/
def chunksOf {α : Type} : Nat → List α → List (List α)
  | _, [] => []
  | 0, _ :: _ => []
  | n + 1, x :: xs => ((x :: xs).take (n + 1)) :: chunksOf (n + 1) ((x :: xs).drop (n + 1))
termination_by _ l => l.length
decreasing_by
  simp only [List.drop_succ_cons, List.length_cons, List.length_drop]
  omega

/-- The batch payloads of one Producer Worker (import.rs lines 215-219):
its partition is grouped into batches of `num_rows_in_batch` records and
each batch is joined into one newline-delimited payload. -/
def worker_payloads (batch : Nat) (records : List String) : List String :=
  (chunksOf batch records).map (fun ch => String.intercalate "\n" ch)

/-- The publish calls one Producer Worker issues (import.rs lines
215-223): one `publish_bytes(topic, QoS::AtMostOnce, payload)` per
batch, in partition order. -/
def worker_publishes (topic : String) (batch : Nat) (records : List String) :
    List (String × QoS × String) :=
  (worker_payloads batch records).map (fun t => (topic, QoS.atMostOnce, t))

/-- Whether a publish outcome is the error case. -/
def isErr (e : Except String Unit) : Bool :=
  match e with
  | .error _ => true
  | .ok _ => false

/-- The batch loop body of a Producer Worker (import.rs lines 218-223):
each batch is published; `outcome i` is the environment-chosen result of
the publish for batch `i`; a failed publish is logged (`error!`) and the
loop moves to the next batch.  Returns the payloads attempted, in order,
and the indices of the logged failures. -/
def worker_loop (outcome : Nat → Except String Unit) (i : Nat) (payloads : List String) :
    List String × List Nat :=
  match payloads with
  | [] => ([], [])
  | p :: rest =>
      match outcome i, worker_loop outcome (i + 1) rest with
      | .ok _, r => (p :: r.1, r.2)
      | .error _, r => (p :: r.1, i :: r.2)

/-- `OptionError` (mod.rs lines 281-317). -/
inductive OptionError
  | scheme
  | clientId
  | keepAlive
  | cleanSession
  | maxIncomingPacketSize
  | maxOutgoingPacketSize
  | requestChannelCapacity
  | maxRequestBatch
  | pendingThrottle
  | inflight
  | connTimeout
  | unknown (opt : String)
  deriving DecidableEq, Repr

/-- The pieces of a parsed `url::Url` that `TryFrom<url::Url> for
MqttOptions` consumes: scheme, host (`host_str().unwrap_or_default()`),
optional port, userinfo, and the query pairs collected into a map
(later duplicates overwrite earlier ones, so lookups find the last
occurrence). -/
structure UrlParts where
  scheme : String
  host : String
  port : Option Nat
  username : String
  password : Option String
  queries : List (String × String)
  deriving DecidableEq, Repr

/-- Lookup in the collected query map: the last pair with the key wins,
as in `query_pairs().collect::<HashMap<_, _>>()`. -/
def qget (qs : List (String × String)) (k : String) : Option String :=
  (qs.reverse.lookup k)

/-- `HashMap::remove` on the collected query map: drops every pair with
the key. -/
def qremove (qs : List (String × String)) (k : String) : List (String × String) :=
  qs.filter (fun p => p.1 != k)

/-- `str::parse::<bool>`. -/
def parse_bool (s : String) : Option Bool :=
  if s = "true" then some true else if s = "false" then some false else none

/-- `str::parse::<u16>`: rejects values above `u16::MAX`. -/
def parse_u16 (s : String) : Option Nat :=
  match s.toNat? with
  | some n => if n < 65536 then some n else none
  | none => none

/-- `TryFrom<url::Url> for MqttOptions` (mod.rs lines 319-438).  Every
query option is read exactly as the source does: `keep_alive_secs` via
`get` (so it is never removed from the map), the rest via `remove`; the
`client_id` query defaults to the empty string with no validation;
credentials come from the URL userinfo; any query left in the map at the
end is an unknown-option error. -/
def mqtt_options_try_from (u : UrlParts) : Except OptionError MqttOptions := do
  let dport ←
    if u.scheme = "mqtts" ∨ u.scheme = "ssl" then Except.ok 8883
    else if u.scheme = "mqtt" ∨ u.scheme = "tcp" then Except.ok 1883
    else Except.error OptionError.scheme
  let port := u.port.getD dport
  let keep_alive ←
    match qget u.queries "keep_alive_secs" with
    | none => Except.ok 60
    | some v =>
        match v.toNat? with
        | some n => Except.ok n
        | none => Except.error OptionError.keepAlive
  let client_id := (qget u.queries "client_id").getD ""
  let qs := qremove u.queries "client_id"
  let clean_session ←
    match qget qs "clean_session" with
    | none => Except.ok true
    | some v =>
        match parse_bool v with
        | some b => Except.ok b
        | none => Except.error OptionError.cleanSession
  let qs := qremove qs "clean_session"
  let credentials :=
    if u.username = "" then none
    else some (u.username, u.password.getD "")
  let max_incoming_packet_size ←
    match qget qs "max_incoming_packet_size_bytes" with
    | none => Except.ok (10 * 1024)
    | some v =>
        match v.toNat? with
        | some n => Except.ok n
        | none => Except.error OptionError.maxIncomingPacketSize
  let qs := qremove qs "max_incoming_packet_size_bytes"
  let max_outgoing_packet_size ←
    match qget qs "max_outgoing_packet_size_bytes" with
    | none => Except.ok (10 * 1024)
    | some v =>
        match v.toNat? with
        | some n => Except.ok n
        | none => Except.error OptionError.maxOutgoingPacketSize
  let qs := qremove qs "max_outgoing_packet_size_bytes"
  let request_channel_capacity ←
    match qget qs "request_channel_capacity_num" with
    | none => Except.ok 10
    | some v =>
        match v.toNat? with
        | some n => Except.ok n
        | none => Except.error OptionError.requestChannelCapacity
  let qs := qremove qs "request_channel_capacity_num"
  let max_request_batch ←
    match qget qs "max_request_batch_num" with
    | none => Except.ok 0
    | some v =>
        match v.toNat? with
        | some n => Except.ok n
        | none => Except.error OptionError.maxRequestBatch
  let qs := qremove qs "max_request_batch_num"
  let pending_throttle ←
    match qget qs "pending_throttle_usecs" with
    | none => Except.ok 0
    | some v =>
        match v.toNat? with
        | some n => Except.ok n
        | none => Except.error OptionError.pendingThrottle
  let qs := qremove qs "pending_throttle_usecs"
  let inflight ←
    match qget qs "inflight_num" with
    | none => Except.ok 100
    | some v =>
        match parse_u16 v with
        | some n => Except.ok n
        | none => Except.error OptionError.inflight
  let qs := qremove qs "inflight_num"
  let conn_timeout ←
    match qget qs "conn_timeout_secs" with
    | none => Except.ok 5
    | some v =>
        match v.toNat? with
        | some n => Except.ok n
        | none => Except.error OptionError.connTimeout
  let qs := qremove qs "conn_timeout_secs"
  match qs with
  | (k, _) :: _ => Except.error (OptionError.unknown k)
  | [] =>
      Except.ok {
        broker_addr := u.host
        port := port
        transport := Transport.tcp
        keep_alive := keep_alive
        clean_session := clean_session
        client_id := client_id
        credentials := credentials
        max_incoming_packet_size := max_incoming_packet_size
        max_outgoing_packet_size := max_outgoing_packet_size
        request_channel_capacity := request_channel_capacity
        max_request_batch := max_request_batch
        pending_throttle := pending_throttle
        inflight := inflight
        last_will := none
        conn_timeout := conn_timeout }

/-- A URL of the shape the importer uses (`mqtt://host`, no query
string): no client_id query parameter at all. -/
def bare_mqtt_url : UrlParts :=
  { scheme := "mqtt", host := "127.0.0.1", port := none
    username := "", password := none, queries := [] }

/-- A length-prefixed demonstration codec: the first byte gives the
payload length and the decoded frame is the payload.  Used to
instantiate the transport theorems on concrete inputs. -/
def demoCodec : Codec (List Nat) :=
  ⟨fun b =>
    match b with
    | [] => .needMore 1
    | len :: rest =>
        if rest.length < len then .needMore (len - rest.length)
        else .ok (rest.take len) (1 + len)⟩

/-- Concrete connection options (the defaults of `MqttOptions::new` with
the importer's identifier), for instantiating theorems. -/
def demo_options : MqttOptions :=
  { broker_addr := "127.0.0.1"
    port := 1883
    transport := Transport.tcp
    keep_alive := 60
    clean_session := true
    client_id := "oidbs"
    credentials := none
    max_incoming_packet_size := 10 * 1024
    max_outgoing_packet_size := 10 * 1024
    request_channel_capacity := 10
    max_request_batch := 0
    pending_throttle := 0
    inflight := 100
    last_will := none
    conn_timeout := 5 }

/-! ### Helper lemmas about the transport loop -/

/-- Whatever `read_bytes_loop` successfully returns: at least `required`
total bytes (and at least one socket read) were obtained, the received
bytes are appended to the buffer in order, and they are exactly the
bytes consumed from the front of the stream. -/
theorem read_bytes_loop_ok_props (req : Nat) :
    ∀ (st : List (List Nat)) (buf : List Nat) (t0 r0 t r : Nat) (b : List Nat)
      (s : List (List Nat)),
      read_bytes_loop req st buf t0 r0 = .ok (t, r, b, s) →
      req ≤ t ∧ r0 < r ∧ ∃ taken : List Nat, taken ≠ [] ∧ b = buf ++ taken ∧
        t = t0 + taken.length ∧ st.flatten = taken ++ s.flatten := by
  intro st buf t0 r0
  induction st, buf, t0, r0 using read_bytes_loop.induct req with
  | case1 buf₀ t₀ r₀ hb =>
      intro t r b s hh
      simp [read_bytes_loop, hb] at hh
  | case2 buf₀ t₀ r₀ hb =>
      intro t r b s hh
      simp [read_bytes_loop, hb] at hh
  | case3 buf₀ t₀ r₀ c rest hg hb =>
      intro t r b s hh
      simp [read_bytes_loop, hg, hb] at hh
  | case4 buf₀ t₀ r₀ c rest hg hb =>
      intro t r b s hh
      simp [read_bytes_loop, hg, hb] at hh
  | case5 buf₀ t₀ r₀ c rest hg hle =>
      intro t r b s hh
      rw [read_bytes_loop] at hh
      rw [dif_neg hg, if_pos hle] at hh
      simp only [Except.ok.injEq, Prod.mk.injEq] at hh
      obtain ⟨ht, hr, hbb, hs⟩ := hh
      refine ⟨by omega, by omega, c.take req, ?_, hbb.symm, by omega, ?_⟩
      · intro hcon
        rw [hcon] at hg
        exact hg rfl
      · subst hs
        by_cases hc : req < c.length
        · rw [if_pos hc]
          simp only [List.flatten_cons]
          rw [← List.append_assoc, List.take_append_drop]
        · rw [if_neg hc]
          simp only [List.flatten_cons]
          rw [List.take_of_length_le (by omega)]
  | case6 buf₀ t₀ r₀ c rest hg hle ih =>
      intro t r b s hh
      rw [read_bytes_loop] at hh
      rw [dif_neg hg, if_neg hle] at hh
      simp only [dite_eq_ite] at ih
      obtain ⟨h1, h2, taken', hne', hb', ht', hflat'⟩ := ih t r b s hh
      refine ⟨h1, by omega, c.take req ++ taken', by simp [hne'], ?_, ?_, ?_⟩
      · rw [hb', List.append_assoc]
      · rw [ht', List.length_append]
        omega
      · have hsplit : (c :: rest).flatten =
            c.take req ++ (if req < c.length then c.drop req :: rest else rest).flatten := by
          by_cases hc : req < c.length
          · rw [if_pos hc]
            simp only [List.flatten_cons]
            rw [← List.append_assoc, List.take_append_drop]
          · rw [if_neg hc]
            simp only [List.flatten_cons]
            rw [List.take_of_length_le (by omega)]
        rw [hsplit, hflat', List.append_assoc]

/-- When the stream still holds at least the missing bytes (and no chunk
is empty), `read_bytes_loop` succeeds, consuming a nonempty prefix of
the stream of at least the required length; the remaining chunks stay
nonempty. -/
theorem read_bytes_loop_avail (req : Nat) :
    ∀ (st : List (List Nat)) (buf : List Nat) (t0 r0 : Nat),
      (∀ ch ∈ st, ch ≠ []) → 0 < req → t0 < req → req - t0 ≤ sumLen st →
      ∃ t r taken s, read_bytes_loop req st buf t0 r0 = .ok (t, r, buf ++ taken, s) ∧
        st.flatten = taken ++ s.flatten ∧ t = t0 + taken.length ∧ req ≤ t ∧
        (∀ ch ∈ s, ch ≠ []) ∧ taken ≠ [] := by
  intro st buf t0 r0
  induction st, buf, t0, r0 using read_bytes_loop.induct req with
  | case1 buf₀ t₀ r₀ hb =>
      intro hne hreq ht0 havail
      simp [sumLen] at havail
      omega
  | case2 buf₀ t₀ r₀ hb =>
      intro hne hreq ht0 havail
      simp [sumLen] at havail
      omega
  | case3 buf₀ t₀ r₀ c rest hg hb =>
      intro hne hreq ht0 havail
      have hc := hne c (by simp)
      simp only [List.length_take] at hg
      have hclen : c.length = 0 := by omega
      exact absurd (List.length_eq_zero.mp hclen) hc
  | case4 buf₀ t₀ r₀ c rest hg hb =>
      intro hne hreq ht0 havail
      have hc := hne c (by simp)
      simp only [List.length_take] at hg
      have hclen : c.length = 0 := by omega
      exact absurd (List.length_eq_zero.mp hclen) hc
  | case5 buf₀ t₀ r₀ c rest hg hle =>
      intro hne hreq ht0 havail
      refine ⟨t₀ + (c.take req).length, r₀ + 1, c.take req,
        (if req < c.length then c.drop req :: rest else rest), ?_, ?_, rfl, by omega, ?_, ?_⟩
      · rw [read_bytes_loop]
        rw [dif_neg hg, if_pos hle]
      · by_cases hc : req < c.length
        · rw [if_pos hc]
          simp only [List.flatten_cons]
          rw [← List.append_assoc, List.take_append_drop]
        · rw [if_neg hc]
          simp only [List.flatten_cons]
          rw [List.take_of_length_le (by omega)]
      · intro ch hch
        by_cases hc : req < c.length
        · rw [if_pos hc] at hch
          rcases List.mem_cons.mp hch with hch | hch
          · subst hch
            intro hcon
            have hlen := congrArg List.length hcon
            simp only [List.length_drop, List.length_nil] at hlen
            omega
          · exact hne ch (List.mem_cons_of_mem _ hch)
        · rw [if_neg hc] at hch
          exact hne ch (List.mem_cons_of_mem _ hch)
      · intro hcon
        rw [hcon] at hg
        exact hg rfl
  | case6 buf₀ t₀ r₀ c rest hg hle ih =>
      intro hne hreq ht0 havail
      have hcfull : ¬req < c.length := by
        intro hc
        simp only [List.length_take] at hle
        omega
      have hcc : c.take req = c := List.take_of_length_le (by omega)
      simp only [dite_eq_ite, if_neg hcfull] at ih
      rw [hcc] at ih
      have hne' : ∀ ch ∈ rest, ch ≠ [] := fun ch hch => hne ch (List.mem_cons_of_mem _ hch)
      have hlen := hle
      rw [hcc] at hlen
      have havail' : req - (t₀ + c.length) ≤ sumLen rest := by
        simp only [sumLen, List.map_cons, List.sum_cons] at havail
        simp only [sumLen]
        omega
      obtain ⟨t, r, taken', s, heq, hflat', ht', hreqle, hs, htk⟩ :=
        ih hne' hreq (by omega) havail'
      refine ⟨t, r, c ++ taken', s, ?_, ?_, ?_, hreqle, hs, ?_⟩
      · rw [read_bytes_loop]
        rw [dif_neg hg, if_neg hle, hcc, if_neg hcfull, heq, List.append_assoc]
      · simp only [List.flatten_cons]
        rw [hflat', List.append_assoc]
      · rw [ht', List.length_append]
        omega
      · intro hcon
        exact htk (List.append_eq_nil.mp hcon).2

/-- A zero-byte read can only produce `connectionAborted` when the read
buffer is empty: once any byte has been appended the buffer stays
nonempty, so a later closure reports `connectionReset`. -/
theorem read_bytes_loop_aborted_empty (req : Nat) :
    ∀ (st : List (List Nat)) (buf : List Nat) (t0 r0 : Nat),
      read_bytes_loop req st buf t0 r0 = .error .connectionAborted → buf = [] := by
  intro st buf t0 r0
  induction st, buf, t0, r0 using read_bytes_loop.induct req with
  | case1 buf₀ t₀ r₀ hb =>
      intro _
      exact List.isEmpty_iff.mp hb
  | case2 buf₀ t₀ r₀ hb =>
      intro hh
      rw [read_bytes_loop] at hh
      simp [hb] at hh
  | case3 buf₀ t₀ r₀ c rest hg hb =>
      intro _
      exact List.isEmpty_iff.mp hb
  | case4 buf₀ t₀ r₀ c rest hg hb =>
      intro hh
      rw [read_bytes_loop] at hh
      rw [dif_pos hg] at hh
      simp [hb] at hh
  | case5 buf₀ t₀ r₀ c rest hg hle =>
      intro hh
      rw [read_bytes_loop] at hh
      rw [dif_neg hg, if_pos hle] at hh
      simp at hh
  | case6 buf₀ t₀ r₀ c rest hg hle ih =>
      intro hh
      rw [read_bytes_loop] at hh
      rw [dif_neg hg, if_neg hle] at hh
      simp only [dite_eq_ite] at ih
      exact (List.append_eq_nil.mp (ih hh)).1

/-- Starting from an empty buffer, a `connectionReset` can only arise
after the first socket read actually delivered bytes. -/
theorem read_bytes_loop_reset_first (req : Nat) (st : List (List Nat)) (t0 r0 : Nat) :
    read_bytes_loop req st [] t0 r0 = .error .connectionReset →
    ∃ c rest, st = c :: rest ∧ c.take req ≠ [] := by
  cases st with
  | nil =>
      intro hh
      rw [read_bytes_loop] at hh
      simp at hh
  | cons c rest =>
      intro hh
      by_cases hg : (c.take req).length = 0
      · rw [read_bytes_loop] at hh
        rw [dif_pos hg] at hh
        simp at hh
      · exact ⟨c, rest, rfl, fun hcon => hg (by rw [hcon]; rfl)⟩

/-- Claim C3: when the underlying stream read returns zero bytes,
`read_bytes` fails with `ConnectionAborted` if the transport read buffer
was empty at that moment and with `ConnectionReset` if it held a partial
frame; the two kinds are never confused (`ConnectionAborted` occurs only
with an empty buffer, and from an empty buffer a `ConnectionReset` can
only follow a read that delivered bytes). -/
theorem read_bytes_zero_read_error_kinds :
    (∀ req (buf : List Nat), read_bytes req [] buf =
        (if buf.isEmpty then .error .connectionAborted else .error .connectionReset)) ∧
    (∀ req (c : List Nat) rest (buf : List Nat), (c.take req).length = 0 →
        read_bytes req (c :: rest) buf =
        (if buf.isEmpty then .error .connectionAborted else .error .connectionReset)) ∧
    (∀ req st (buf : List Nat), read_bytes req st buf = .error .connectionAborted →
        buf = []) ∧
    (∀ req st, read_bytes req st ([] : List Nat) = .error .connectionReset →
        ∃ c rest, st = c :: rest ∧ c.take req ≠ []) := by
  refine ⟨?_, ?_, ?_, ?_⟩
  · intro req buf
    rw [read_bytes, read_bytes_loop]
  · intro req c rest buf hg
    rw [read_bytes, read_bytes_loop]
    rw [dif_pos hg]
  · intro req st buf hh
    exact read_bytes_loop_aborted_empty req st buf 0 0 hh
  · intro req st hh
    exact read_bytes_loop_reset_first req st 0 0 hh

/-- Witness for C3: concrete zero-byte reads on an empty and a nonempty
buffer, and a reset after a partial frame (one byte of ten). -/
theorem read_bytes_zero_read_error_kinds_witness :
    read_bytes 10 [] ([] : List Nat) = .error .connectionAborted ∧
    read_bytes 10 [] [1, 2, 3] = .error .connectionReset ∧
    read_bytes 10 [[], [9]] [7] = .error .connectionReset ∧
    (∃ c rest, [[5], []] = c :: rest ∧ c.take 10 ≠ []) := by
  refine ⟨?_, ?_, ?_, ?_⟩
  · simpa using read_bytes_zero_read_error_kinds.1 10 []
  · simpa using read_bytes_zero_read_error_kinds.1 10 [1, 2, 3]
  · simpa using read_bytes_zero_read_error_kinds.2.1 10 [] [[9]] [7] rfl
  · exact read_bytes_zero_read_error_kinds.2.2.2 10 [[5], []]
      (by simp [read_bytes, read_bytes_loop])

/-- Claim C4 counterexample: with the codec needing 10 more bytes and
the stream delivering them as 3 + 7, `read_bytes` performs two socket
reads (not exactly one) before control returns to the decode loop. -/
theorem read_bytes_two_reads_counterexample :
    read_bytes 10 [[1, 2, 3], [4, 5, 6, 7, 8, 9, 10]] [] =
      .ok (10, 2, [1, 2, 3, 4, 5, 6, 7, 8, 9, 10], []) ∧ (2 : Nat) ≠ 1 := by
  constructor
  · simp [read_bytes, read_bytes_loop]
  · decide

/-- Claim C4 (amended): when the codec reports it needs `req` additional
bytes, the transport performs one or more blocking reads, each
requesting up to `req` bytes, until at least `req` bytes in total have
arrived, appends exactly the received stream prefix to the read buffer,
and only then retries the decode. -/
theorem read_bytes_reads_until_required (req : Nat) (st : List (List Nat)) (buf : List Nat)
    (t r : Nat) (b : List Nat) (s : List (List Nat))
    (h : read_bytes req st buf = .ok (t, r, b, s)) :
    req ≤ t ∧ 1 ≤ r ∧ ∃ taken : List Nat, taken ≠ [] ∧ b = buf ++ taken ∧
      t = taken.length ∧ st.flatten = taken ++ s.flatten := by
  obtain ⟨h1, h2, taken, h3, h4, h5, h6⟩ :=
    read_bytes_loop_ok_props req st buf 0 0 t r b s h
  exact ⟨h1, h2, taken, h3, h4, by omega, h6⟩

/-- Witness for the amended C4 at a concrete successful read. -/
theorem read_bytes_reads_until_required_witness :
    read_bytes 3 [[1, 2, 3]] [] = .ok (3, 1, [1, 2, 3], []) ∧
    (3 ≤ 3 ∧ 1 ≤ 1 ∧ ∃ taken : List Nat, taken ≠ [] ∧ [1, 2, 3] = [] ++ taken ∧
      3 = taken.length ∧ [[1, 2, 3]].flatten = taken ++ [].flatten) := by
  have h : read_bytes 3 [[1, 2, 3]] [] = .ok (3, 1, [1, 2, 3], []) := by
    simp [read_bytes, read_bytes_loop]
  exact ⟨h, read_bytes_reads_until_required 3 [[1, 2, 3]] [] 3 1 [1, 2, 3] [] h⟩

/-- With the full encoding in the buffer, the decode succeeds at once
and the (necessarily exhausted) stream is untouched. -/
theorem network_read_done {F : Type} (C : Codec F) (f : F) (e : List Nat)
    (H1 : C.decode e = .ok f e.length) (st : List (List Nat))
    (hne : ∀ ch ∈ st, ch ≠ []) (hflat : st.flatten = []) :
    Network.read C st e = .ok (f, [], []) := by
  have hst : st = [] := by
    cases st with
    | nil => rfl
    | cons c rest =>
        have hc := (List.flatten_eq_nil_iff.mp hflat) c (by simp)
        exact absurd hc (hne c (by simp))
  subst hst
  rw [Network.read]
  rw [H1]
  simp [List.drop_length]

/-- Incremental assembly: if the buffer holds the first `k` bytes of the
encoding `e` and the stream holds the rest (in nonempty chunks),
`Network.read` decodes exactly `f`, consuming everything.  Induction is
on a bound `m` for the number of missing bytes. -/
theorem network_read_assembles {F : Type} (C : Codec F) (f : F) (e : List Nat)
    (H1 : C.decode e = .ok f e.length)
    (H2 : ∀ k, k < e.length →
      ∃ n, C.decode (e.take k) = .needMore n ∧ 0 < n ∧ k + n ≤ e.length) :
    ∀ (m k : Nat) (st : List (List Nat)), e.length - k ≤ m → k ≤ e.length →
      st.flatten = e.drop k → (∀ ch ∈ st, ch ≠ []) →
      Network.read C st (e.take k) = .ok (f, [], []) := by
  intro m
  induction m with
  | zero =>
      intro k st hm hk hflat hne
      have hk' : k = e.length := by omega
      subst hk'
      rw [List.take_length]
      rw [List.drop_length] at hflat
      exact network_read_done C f e H1 st hne hflat
  | succ m ih =>
      intro k st hm hk hflat hne
      by_cases hke : k = e.length
      · subst hke
        rw [List.take_length]
        rw [List.drop_length] at hflat
        exact network_read_done C f e H1 st hne hflat
      · have hklt : k < e.length := by omega
        obtain ⟨n, hdec, hn, hroom⟩ := H2 k hklt
        have hsum : sumLen st = st.flatten.length := (List.length_flatten st).symm
        have havail : n - 0 ≤ sumLen st := by
          have h1 : st.flatten.length = e.length - k := by
            rw [hflat, List.length_drop]
          omega
        obtain ⟨t, r, taken, s, heq, hflat', ht, hreq, hs, htk⟩ :=
          read_bytes_loop_avail n st (e.take k) 0 0 hne hn hn havail
        have hface : e.drop k = taken ++ s.flatten := by
          rw [← hflat, hflat']
        have hlen1 : taken.length ≤ e.length - k := by
          have h2 := congrArg List.length hface
          rw [List.length_drop, List.length_append] at h2
          omega
        have htaken_take : taken = (e.drop k).take taken.length := by
          rw [hface, List.take_left]
        have hbufnew : e.take k ++ taken = e.take (k + taken.length) := by
          rw [List.take_add, ← htaken_take]
        have hsflat : s.flatten = e.drop (k + taken.length) := by
          have h3 : (e.drop k).drop taken.length = s.flatten := by
            rw [hface, List.drop_left]
          rw [← h3, List.drop_drop]
        have htlen : 0 < taken.length := List.length_pos.mpr htk
        rw [Network.read]
        rw [hdec]
        split
        · rename_i hco
          cases hco
        · rename_i hco
          cases hco
        · rename_i n' hco
          obtain rfl : n' = n := by cases hco; rfl
          split
          · rename_i e' he'
            unfold read_bytes at he'
            rw [heq] at he'
            cases he'
          · rename_i t' r' buf' st' h'
            unfold read_bytes at h'
            rw [heq] at h'
            simp only [Except.ok.injEq, Prod.mk.injEq] at h'
            obtain ⟨-, -, hb1, hs1⟩ := h'
            subst hs1
            rw [← hb1, hbufnew]
            exact ih (k + taken.length) s (by omega) (by omega) hsflat hs

/-- Claim C6: for every frame whose encoding decodes whole (and whose
proper prefixes each make the codec request more bytes, as the MQTT
codec does), delivering the encoding split across arbitrarily many
nonempty partial reads makes `Network.read` return the same decoded
frame as delivering it in one read; in both cases the result is the
fully decoded frame, never a partial one. -/
theorem network_read_split_invariant {F : Type} (C : Codec F) (f : F) (e : List Nat)
    (chunks : List (List Nat))
    (H1 : C.decode e = .ok f e.length)
    (H2 : ∀ k, k < e.length →
      ∃ n, C.decode (e.take k) = .needMore n ∧ 0 < n ∧ k + n ≤ e.length)
    (hflat : chunks.flatten = e) (hne : ∀ c ∈ chunks, c ≠ []) (he : e ≠ []) :
    Network.read C chunks [] = .ok (f, [], []) ∧
    Network.read C [e] [] = .ok (f, [], []) := by
  constructor
  · have h := network_read_assembles C f e H1 H2 e.length 0 chunks
      (by omega) (by omega) (by simpa using hflat) hne
    simpa using h
  · have h := network_read_assembles C f e H1 H2 e.length 0 [e]
      (by omega) (by omega) (by simp) (by simp [he])
    simpa using h

/-- Witness for C6: the demonstration codec decodes the same frame from
a byte-by-byte delivery and from a single-chunk delivery. -/
theorem network_read_split_invariant_witness :
    Network.read demoCodec [[2], [5], [6]] [] = .ok ([5, 6], [], []) ∧
    Network.read demoCodec [[2, 5, 6]] [] = .ok ([5, 6], [], []) := by
  exact network_read_split_invariant demoCodec [5, 6] [2, 5, 6] [[2], [5], [6]]
    (by decide)
    (by
      intro k hk
      have hk3 : k < 3 := by simpa using hk
      interval_cases k
      · exact ⟨1, by decide, by decide, by decide⟩
      · exact ⟨2, by decide, by decide, by decide⟩
      · exact ⟨1, by decide, by decide, by decide⟩)
    (by decide) (by decide) (by decide)

/-- Claim C1: when the broker answers the handshake with an accepted
ConnAck the client returns that frame and is Connected; a ConnAck with
any other return code fails with the rejection error carrying exactly
that code and the client ends Errored, never Connected; any other frame
fails with the unexpected-frame error. -/
theorem handshake_response_cases (o : MqttOptions) (incoming : Packet) :
    (∀ sp, incoming = .connAck sp .success →
      (handshake o incoming).2 = .ok (.connAck sp .success) ∧
      session_after_handshake o incoming = .connected) ∧
    (∀ sp code, incoming = .connAck sp code → code ≠ .success →
      (handshake o incoming).2 = .error (.handshakeRejected code) ∧
      session_after_handshake o incoming = .errored) ∧
    ((∀ sp code, incoming ≠ .connAck sp code) →
      (handshake o incoming).2 = .error (.unexpectedFrame incoming) ∧
      session_after_handshake o incoming = .errored) := by
  refine ⟨?_, ?_, ?_⟩
  · rintro sp rfl
    simp [handshake, session_after_handshake]
  · rintro sp code rfl hnz
    simp [handshake, session_after_handshake, hnz]
  · intro hno
    cases incoming with
    | connect c => simp [handshake, session_after_handshake]
    | connAck sp code => exact absurd rfl (hno sp code)
    | publish p => simp [handshake, session_after_handshake]
    | pingReq => simp [handshake, session_after_handshake]
    | pingResp => simp [handshake, session_after_handshake]
    | disconnect => simp [handshake, session_after_handshake]

/-- Witness for C1 at the three concrete broker responses. -/
theorem handshake_response_cases_witness :
    ((handshake demo_options (.connAck false .success)).2 = .ok (.connAck false .success) ∧
      session_after_handshake demo_options (.connAck false .success) = .connected) ∧
    ((handshake demo_options (.connAck true .badClientId)).2 =
        .error (.handshakeRejected .badClientId) ∧
      session_after_handshake demo_options (.connAck true .badClientId) = .errored) ∧
    ((handshake demo_options .pingResp).2 = .error (.unexpectedFrame .pingResp) ∧
      session_after_handshake demo_options .pingResp = .errored) := by
  refine ⟨?_, ?_, ?_⟩
  · exact (handshake_response_cases demo_options (.connAck false .success)).1 false rfl
  · exact (handshake_response_cases demo_options (.connAck true .badClientId)).2.1
      true .badClientId rfl (by decide)
  · exact (handshake_response_cases demo_options .pingResp).2.2
      (fun sp code h => Packet.noConfusion h)

/-- Claim C2 (amended): `publish_bytes` performs no session-state check:
for every client state, Connected or not, it encodes and writes exactly
one Publish frame, returns `Ok(())` once the write completes, reads no
inbound frame (no acknowledgment wait), and never produces a
`NotConnected` error. -/
theorem publish_bytes_no_state_check (c : ClientState) (topic : String) (qos : QoS)
    (payload : List Nat) :
    (publish_bytes c topic qos payload).1 = .ok () ∧
    (publish_bytes c topic qos payload).2.sent =
      c.sent ++ [Packet.publish ⟨topic, qos, payload⟩] ∧
    (publish_bytes c topic qos payload).2.inbound = c.inbound ∧
    (∀ b : Bool, (publish_bytes { c with handshaken := b } topic qos payload).1 =
      (publish_bytes c topic qos payload).1) ∧
    (publish_bytes c topic qos payload).1 ≠ .error .notConnected := by
  refine ⟨rfl, rfl, rfl, fun b => rfl, ?_⟩
  simp [publish_bytes]

/-- Claim C2 counterexample: a freshly constructed client that has never
run the handshake is not Connected, yet `publish_bytes` succeeds instead
of failing with `NotConnected`. -/
theorem publish_bytes_without_handshake_counterexample :
    fresh_client.handshaken = false ∧
    (publish_bytes fresh_client "t" .atMostOnce []).1 = .ok () ∧
    (publish_bytes fresh_client "t" .atMostOnce []).1 ≠ .error .notConnected := by
  refine ⟨rfl, rfl, ?_⟩
  simp [publish_bytes]

/-- Claim C5 (code-bug evidence): `Network::write` issues a single
`socket.write` call and ignores the returned count; when the stream
accepts only 2 of the 3 encoded bytes the call still succeeds and clears
the scratch buffer, leaving a strict prefix on the wire — while a frame
with zero encoded bytes is indeed a no-op. -/
theorem network_write_short_write :
    Network.write 2 [1, 2, 3] [] = ([], [1, 2]) ∧
    ([1, 2] : List Nat) ≠ [1, 2, 3] ∧
    (∀ cap (wire : List Nat), Network.write cap [] wire = ([], wire)) := by
  refine ⟨rfl, by decide, fun cap wire => rfl⟩

/-- Claim C10: `Client::new` wires the transport with the hard-coded
1 MiB `MAX_PACKET_SIZE` for every options value — including any setting
of `max_incoming_packet_size` (default 10 KiB), which is therefore never
the limit handed to the frame decoder. -/
theorem client_new_hardcoded_max_packet_size :
    (∀ o : MqttOptions, (Client.new o).max_incoming_size = MAX_PACKET_SIZE) ∧
    (∀ (o : MqttOptions) (incoming outgoing : Nat),
      (Client.new (o.set_max_packet_size incoming outgoing)).max_incoming_size =
        (Client.new o).max_incoming_size) ∧
    MAX_PACKET_SIZE = 1024 * 1024 ∧
    (MqttOptions.new "oidbs" "127.0.0.1" 1883).map
      (fun o => o.max_incoming_packet_size) = .ok (10 * 1024) ∧
    (10 * 1024 : Nat) ≠ MAX_PACKET_SIZE := by
  refine ⟨fun o => rfl, fun o i og => rfl, rfl, ?_, by decide⟩
  rw [MqttOptions.new, if_neg (by decide)]
  rfl

/-- Concatenating the batches gives back the partition, in order. -/
theorem chunksOf_flatten {α : Type} :
    ∀ (n : Nat) (l : List α), 0 < n → (chunksOf n l).flatten = l := by
  intro n l
  induction n, l using chunksOf.induct with
  | case1 n => intro _; simp [chunksOf]
  | case2 x xs => intro h0; omega
  | case3 n x xs ih =>
      intro _
      rw [chunksOf]
      simp only [List.flatten_cons]
      rw [ih (by omega)]
      exact List.take_append_drop _ _

/-- Every batch is nonempty and no longer than the batch size. -/
theorem chunksOf_mem {α : Type} :
    ∀ (n : Nat) (l : List α), 0 < n → ∀ ch ∈ chunksOf n l, ch ≠ [] ∧ ch.length ≤ n := by
  intro n l
  induction n, l using chunksOf.induct with
  | case1 n => intro _ ch hch; simp [chunksOf] at hch
  | case2 x xs => intro h0; omega
  | case3 n x xs ih =>
      intro _ ch hch
      rw [chunksOf] at hch
      rcases List.mem_cons.mp hch with hch | hch
      · subst hch
        constructor
        · intro hcon
          have := congrArg List.length hcon
          simp only [List.length_take, List.length_cons, List.length_nil] at this
          omega
        · simp
      · exact ih (by omega) ch hch

/-- Every batch except possibly the last has exactly the batch size. -/
theorem chunksOf_full {α : Type} :
    ∀ (n : Nat) (l : List α), 0 < n → ∀ (i : Nat) (ch : List α),
      (chunksOf n l)[i]? = some ch → i + 1 < (chunksOf n l).length → ch.length = n := by
  intro n l
  induction n, l using chunksOf.induct with
  | case1 n =>
      intro _ i ch hch _
      simp [chunksOf] at hch
  | case2 x xs => intro h0; omega
  | case3 n x xs ih =>
      intro _ i ch hch hnext
      rw [chunksOf] at hch hnext
      cases i with
      | zero =>
          rw [List.getElem?_cons_zero] at hch
          obtain rfl : (x :: xs).take (n + 1) = ch := Option.some.inj hch
          have hrest : 0 < (chunksOf (n + 1) ((x :: xs).drop (n + 1))).length := by
            simp only [List.length_cons] at hnext
            omega
          have hdrop : (x :: xs).drop (n + 1) ≠ [] := by
            intro hd
            rw [hd] at hrest
            simp [chunksOf] at hrest
          have hlong : n + 1 < (x :: xs).length := by
            have hpos := List.length_pos.mpr hdrop
            rw [List.length_drop] at hpos
            omega
          rw [List.length_take]
          omega
      | succ j =>
          rw [List.getElem?_cons_succ] at hch
          simp only [List.length_cons] at hnext
          exact ih (by omega) j ch hch (by omega)

/-- Claim C7: the Producer Worker groups its partition into consecutive
batches of the configured size (the last batch possibly shorter), joins
each batch with newlines into one payload, and issues exactly one
fire-and-forget publish per batch, in partition order. -/
theorem worker_batches_spec (topic : String) (batch : Nat) (records : List String)
    (h : 0 < batch) :
    worker_publishes topic batch records =
      (chunksOf batch records).map
        (fun ch => (topic, QoS.atMostOnce, String.intercalate "\n" ch)) ∧
    (chunksOf batch records).flatten = records ∧
    (∀ ch ∈ chunksOf batch records, ch ≠ [] ∧ ch.length ≤ batch) ∧
    (∀ (i : Nat) (ch : List String), (chunksOf batch records)[i]? = some ch →
      i + 1 < (chunksOf batch records).length → ch.length = batch) := by
  refine ⟨?_, chunksOf_flatten batch records h, chunksOf_mem batch records h,
    chunksOf_full batch records h⟩
  rw [worker_publishes, worker_payloads, List.map_map]
  rfl

/-- Witness for C7: three records in batches of two give two publishes,
"a\nb" then "c". -/
theorem worker_batches_spec_witness :
    0 < 2 ∧
    (worker_publishes "t" 2 ["a", "b", "c"] =
      (chunksOf 2 ["a", "b", "c"]).map
        (fun ch => ("t", QoS.atMostOnce, String.intercalate "\n" ch)) ∧
    (chunksOf 2 ["a", "b", "c"]).flatten = ["a", "b", "c"] ∧
    (∀ ch ∈ chunksOf 2 ["a", "b", "c"], ch ≠ [] ∧ ch.length ≤ 2) ∧
    (∀ (i : Nat) (ch : List String), (chunksOf 2 ["a", "b", "c"])[i]? = some ch →
      i + 1 < (chunksOf 2 ["a", "b", "c"]).length → ch.length = 2)) :=
  ⟨by decide, worker_batches_spec "t" 2 ["a", "b", "c"] (by decide)⟩

/-- Claim C8: whatever the publish outcomes, the worker loop attempts
every batch exactly once, in order — a failed publish is logged and the
loop proceeds, with no retry and no abort of the remaining batches. -/
theorem worker_loop_never_aborts (outcome : Nat → Except String Unit) (i : Nat)
    (payloads : List String) :
    (worker_loop outcome i payloads).1 = payloads ∧
    (worker_loop outcome i payloads).2 =
      (List.range' i payloads.length).filter (fun j => isErr (outcome j)) ∧
    (∀ outcome' : Nat → Except String Unit,
      (worker_loop outcome' i payloads).1 = (worker_loop outcome i payloads).1) := by
  have key : ∀ (out : Nat → Except String Unit) (j : Nat) (ps : List String),
      (worker_loop out j ps).1 = ps ∧
      (worker_loop out j ps).2 =
        (List.range' j ps.length).filter (fun k => isErr (out k)) := by
    intro out j ps
    induction ps generalizing j with
    | nil => simp [worker_loop, List.range']
    | cons p rest ih =>
        rw [worker_loop]
        obtain ⟨ih1, ih2⟩ := ih (j + 1)
        cases ho : out j with
        | ok u =>
            constructor
            · simp [ih1]
            · simp only [List.length_cons, List.range'_succ, List.filter_cons]
              simp [isErr, ho, ih2]
        | error e =>
            constructor
            · simp [ih1]
            · simp only [List.length_cons, List.range'_succ, List.filter_cons]
              simp [isErr, ho, ih2]
  exact ⟨(key outcome i payloads).1, (key outcome i payloads).2,
    fun o' => by rw [(key o' i payloads).1, (key outcome i payloads).1]⟩

/-- Claim C9 (amended): `MqttOptions::new` panics, before any socket
activity, on an empty or leading-space identifier; the URL conversion
path, however, performs no identifier validation (see the
counterexample). -/
theorem mqtt_options_new_rejects_bad_id (id host : String) (port : Nat)
    (h : id = "" ∨ starts_with_space id = true) :
    MqttOptions.new id host port = .error "Invalid client id" := by
  rcases h with h | h
  · rw [MqttOptions.new, if_pos (Or.inr h)]
  · rw [MqttOptions.new, if_pos (Or.inl h)]

/-- Witness for the amended C9 at the two rejected identifier shapes. -/
theorem mqtt_options_new_rejects_bad_id_witness :
    MqttOptions.new "" "127.0.0.1" 1883 = .error "Invalid client id" ∧
    MqttOptions.new " oidbs" "127.0.0.1" 1883 = .error "Invalid client id" := by
  constructor
  · exact mqtt_options_new_rejects_bad_id "" "127.0.0.1" 1883 (Or.inl rfl)
  · exact mqtt_options_new_rejects_bad_id " oidbs" "127.0.0.1" 1883 (Or.inr (by decide))

/-- Claim C9 counterexample: converting a URL with no client_id query
succeeds and stores the empty identifier — construction does not fail,
and `Client::new` proceeds toward the socket with that identifier. -/
theorem mqtt_options_from_url_empty_id_counterexample :
    (mqtt_options_try_from bare_mqtt_url).map
      (fun o => ((Client.new o).options.client_id, starts_with_space o.client_id)) =
      .ok ("", false) := by
  rfl

end Oidbs
